import Mathlib

/-!
Verification of the retrieval core of the `7_day_ai_agents_email_crash_course`
repository: the sliding-window chunker (`project/chunking.py`), the sparse
TF-IDF index and dense vector index (`project/search.py` and
`project/app/search_tools.py`), the hybrid fusion, and the retrieval facade
(`project/app/search_tools.py`).

The embedding is a direct shallow translation of the Python source.  Python
exceptions are modelled with `Except PyErr`; numpy/scikit-learn numeric
routines (float64 square root and natural log) are modelled by exact rational
surrogate functions, and every definition is computable so theorems about
concrete inputs can be settled by evaluation.
-/

/-- A Python exception as raised by the code under study: `ValueError` with a
message, or `IndexError` from list indexing. -/
inductive PyErr where
  | valueError (msg : String)
  | indexError
deriving DecidableEq, Repr

/-- The text of `str(e)` for a modelled exception; an `IndexError` from list
indexing stringifies as Python prints it. -/
def PyErr.text : PyErr → String
  | .valueError m => m
  | .indexError => "list index out of range"

instance {ε α : Type} [DecidableEq ε] [DecidableEq α] : DecidableEq (Except ε α) := fun a b =>
  match a, b with
  | .ok x, .ok y => if h : x = y then .isTrue (by rw [h]) else .isFalse (by simp [h])
  | .error x, .error y => if h : x = y then .isTrue (by rw [h]) else .isFalse (by simp [h])
  | .ok _, .error _ => .isFalse (by simp)
  | .error _, .ok _ => .isFalse (by simp)

/-- One chunk produced by `sliding_window` in `project/chunking.py`: the dict
`{'start': i, 'content': seq[i:i+size]}`. -/
structure SWChunk (α : Type) where
  start : Nat
  content : List α
deriving DecidableEq, Repr

/-- The loop body of `sliding_window`, run over the offsets produced by
`range(0, n, step)`: each iteration appends the chunk `seq[i:i+size]` at
offset `i` and the loop breaks once `i + size >= n` (that chunk is kept). -/
def slidingLoop {α : Type} (seq : List α) (size : Nat) : List Nat → List (SWChunk α)
  | [] => []
  | i :: rest =>
    { start := i, content := (seq.drop i).take size } ::
      (if seq.length ≤ i + size then [] else slidingLoop seq size rest)

/-- The offsets `range(0, n, step)` of Python for `step > 0`: the naturals
`0, step, 2*step, ...` below `n`, of which there are `(n + step - 1) / step`. -/
def pyRangeStep (n step : Nat) : List Nat :=
  List.range' 0 ((n + step - 1) / step) step

/-- Model of `sliding_window(seq, size, step)` from `project/chunking.py`
(lines 5-28): raises `ValueError("size and step must be positive")` when
`size <= 0 or step <= 0`, otherwise emits chunks `seq[i:i+size]` at offsets
`i = 0, step, 2*step, ...`, stopping after the first chunk whose end reaches
or passes `len(seq)`. -/
def sliding_window {α : Type} (seq : List α) (size step : Int) :
    Except PyErr (List (SWChunk α)) :=
  if size ≤ 0 ∨ step ≤ 0 then
    .error (.valueError "size and step must be positive")
  else
    .ok (slidingLoop seq size.toNat (pyRangeStep seq.length step.toNat))

/-! ### Facts about the sliding-window chunker -/

/-- The ceiling division behind the iteration count of `range(0, n, step)`
reaches at least `n`. -/
lemma pyRange_count_mul_ge (n step : Nat) (h : 0 < step) :
    n ≤ (n + step - 1) / step * step := by
  by_contra hlt
  push_neg at hlt
  have h1 : (n + step - 1) / step + 1 ≤ (n + step - 1) / step := by
    rw [Nat.le_div_iff_mul_le h]
    have hd : ((n + step - 1) / step + 1) * step
        = (n + step - 1) / step * step + step := by ring
    omega
  omega

/-- Every offset enumerated by `pyRangeStep n step` is below `n`. -/
lemma pyRangeStep_lt (n step : Nat) (h : 0 < step) :
    ∀ i ∈ pyRangeStep n step, i < n := by
  intro i hi
  rw [pyRangeStep, List.mem_range'] at hi
  obtain ⟨k, hk, rfl⟩ := hi
  have h1 : (k + 1) * step ≤ (n + step - 1) / step * step :=
    Nat.mul_le_mul_right step hk
  have h2 := Nat.div_mul_le_self (n + step - 1) step
  have h3 : (k + 1) * step = k * step + step := by ring
  have h4 : step * k = k * step := by ring
  omega

/-- Chunks emitted over in-bounds offsets end inside the sequence. -/
lemma slidingLoop_end_le {α : Type} (seq : List α) (size : Nat) :
    ∀ offs : List Nat, (∀ i ∈ offs, i < seq.length) →
      ∀ ch ∈ slidingLoop seq size offs, ch.start + ch.content.length ≤ seq.length := by
  intro offs
  induction offs with
  | nil => intro _ ch hch; simp [slidingLoop] at hch
  | cons i rest ih =>
    intro hin ch hch
    rw [slidingLoop] at hch
    rcases List.mem_cons.mp hch with hhd | htl
    · subst hhd
      simp only [List.length_take, List.length_drop]
      have := hin i (List.mem_cons_self i rest)
      omega
    · by_cases hend : seq.length ≤ i + size
      · simp [hend] at htl
      · simp only [if_neg hend] at htl
        exact ih (fun j hj => hin j (List.mem_cons_of_mem i hj)) ch htl

/-- Coverage of the loop: when `step ≤ size`, every position `j` of the
sequence that the remaining offsets can still reach lies inside some emitted
chunk. -/
lemma slidingLoop_covers {α : Type} (seq : List α) (size step : Nat)
    (hss : step ≤ size) :
    ∀ (m i j : Nat), i ≤ j → j < seq.length → j < i + m * step →
      ∃ ch ∈ slidingLoop seq size (List.range' i m step),
        ch.start ≤ j ∧ j < ch.start + ch.content.length := by
  intro m
  induction m with
  | zero => intro i j hij _ hreach; omega
  | succ m ih =>
    intro i j hij hjlt hreach
    rw [List.range'_succ, slidingLoop]
    have hlen : ((seq.drop i).take size).length = min size (seq.length - i) := by
      simp [List.length_take, List.length_drop]
    by_cases hend : seq.length ≤ i + size
    · refine ⟨⟨i, (seq.drop i).take size⟩, List.mem_cons_self _ _, hij, ?_⟩
      simp only [hlen]; omega
    · by_cases hj : j < i + size
      · refine ⟨⟨i, (seq.drop i).take size⟩, List.mem_cons_self _ _, hij, ?_⟩
        simp only [hlen]; omega
      · have hstep : i + (m + 1) * step = (i + step) + m * step := by ring
        obtain ⟨ch, hch, h1, h2⟩ :=
          ih (i + step) j (by omega) hjlt (by omega)
        exact ⟨ch, by simp only [if_neg hend]; exact List.mem_cons_of_mem _ hch,
          h1, h2⟩

/-- CLAIM C1, counterexample: with `windowSize = 1` and `stepSize = 2` on a
three-character document, position `1` of `[0, 3)` is covered by no returned
chunk, so the union of the chunk ranges does not cover `[0, n)` for every
`windowSize >= 1`, `stepSize >= 1`. -/
theorem c1_counterexample :
    sliding_window (['a', 'b', 'c'] : List Char) 1 2 =
      .ok [⟨0, ['a']⟩, ⟨2, ['c']⟩] ∧
    (1 : Nat) < (['a', 'b', 'c'] : List Char).length ∧
    ¬ ∃ ch ∈ ([⟨0, ['a']⟩, ⟨2, ['c']⟩] : List (SWChunk Char)),
        ch.start ≤ 1 ∧ 1 < ch.start + ch.content.length := by
  refine ⟨by decide, by decide, by decide⟩

/-- CLAIM C1, amended: for every document and `windowSize ≥ 1`, `stepSize ≥ 1`
with additionally `stepSize ≤ windowSize`, the half-open ranges
`[start, start + len(content))` of the chunks returned by `sliding_window`
cover `[0, n)` with no gaps (and stay inside `[0, n)`). -/
theorem c1_amended {α : Type} (seq : List α) (size step : Int)
    (hsize : 1 ≤ size) (hstep : 1 ≤ step) (hss : step ≤ size) :
    ∃ chunks, sliding_window seq size step = .ok chunks ∧
      (∀ j, j < seq.length →
        ∃ ch ∈ chunks, ch.start ≤ j ∧ j < ch.start + ch.content.length) ∧
      (∀ ch ∈ chunks, ch.start + ch.content.length ≤ seq.length) := by
  have hguard : ¬ (size ≤ 0 ∨ step ≤ 0) := by omega
  refine ⟨slidingLoop seq size.toNat (pyRangeStep seq.length step.toNat),
    by rw [sliding_window, if_neg hguard], ?_, ?_⟩
  · intro j hj
    have hpos : 0 < step.toNat := by omega
    have hreach : j < 0 + ((seq.length + step.toNat - 1) / step.toNat) * step.toNat := by
      have := pyRange_count_mul_ge seq.length step.toNat hpos
      omega
    exact slidingLoop_covers seq size.toNat step.toNat (by omega)
      ((seq.length + step.toNat - 1) / step.toNat) 0 j (Nat.zero_le j) hj hreach
  · exact slidingLoop_end_le seq size.toNat _
      (pyRangeStep_lt seq.length step.toNat (by omega))

/-- CLAIM C1, witness: the amended coverage theorem applied to a concrete
document of five characters with window 2 and step 1. -/
theorem c1_witness :
    (1 : Int) ≤ 2 ∧ (1 : Int) ≤ 1 ∧ (1 : Int) ≤ 2 ∧
    (∃ chunks, sliding_window (['a', 'b', 'c', 'd', 'e'] : List Char) 2 1 = .ok chunks ∧
      (∀ j, j < (['a', 'b', 'c', 'd', 'e'] : List Char).length →
        ∃ ch ∈ chunks, ch.start ≤ j ∧ j < ch.start + ch.content.length) ∧
      (∀ ch ∈ chunks, ch.start + ch.content.length ≤
        (['a', 'b', 'c', 'd', 'e'] : List Char).length)) :=
  ⟨by decide, by decide, by decide,
    c1_amended (['a', 'b', 'c', 'd', 'e'] : List Char) 2 1
      (by decide) (by decide) (by decide)⟩

/-- CLAIM C7, counterexample: the empty document has length `0 ≤ windowSize`,
yet the chunker returns no chunk at all rather than exactly one. -/
theorem c7_counterexample :
    sliding_window (([] : List Char)) 3 1 = .ok [] ∧
    (([] : List Char)).length ≤ 3 ∧
    ¬ ∃ ch : SWChunk Char, sliding_window (([] : List Char)) 3 1 = .ok [ch] := by
  refine ⟨by decide, by decide, ?_⟩
  rintro ⟨ch, hch⟩
  rw [show sliding_window (([] : List Char)) 3 1 = .ok [] from by decide] at hch
  simp at hch

/-- CLAIM C7, amended: every document with `1 ≤ len(content) ≤ windowSize`
(and valid positive parameters) yields exactly one chunk, with `start = 0` and
content equal to the whole document. -/
theorem c7_amended {α : Type} (seq : List α) (size step : Int)
    (hsize : 1 ≤ size) (hstep : 1 ≤ step)
    (hne : 0 < seq.length) (hfit : (seq.length : Int) ≤ size) :
    sliding_window seq size step = .ok [⟨0, seq⟩] := by
  have hguard : ¬ (size ≤ 0 ∨ step ≤ 0) := by omega
  rw [sliding_window, if_neg hguard]
  have hq : 0 < (seq.length + step.toNat - 1) / step.toNat := by
    rw [Nat.lt_iff_add_one_le, Nat.le_div_iff_mul_le (by omega : 0 < step.toNat)]
    omega
  obtain ⟨q, hq'⟩ : ∃ q, (seq.length + step.toNat - 1) / step.toNat = q + 1 :=
    ⟨(seq.length + step.toNat - 1) / step.toNat - 1, by omega⟩
  rw [pyRangeStep, hq', List.range'_succ, slidingLoop]
  have hfit' : seq.length ≤ size.toNat := by omega
  rw [if_pos (by omega : seq.length ≤ 0 + size.toNat)]
  simp [List.take_of_length_le hfit']

/-- CLAIM C7, witness: a two-character document with window 3 and step 1
yields the single whole-document chunk. -/
theorem c7_witness :
    (1 : Int) ≤ 3 ∧ (1 : Int) ≤ 1 ∧ 0 < (['a', 'b'] : List Char).length ∧
    (((['a', 'b'] : List Char).length : Int) ≤ 3) ∧
    sliding_window (['a', 'b'] : List Char) 3 1 = .ok [⟨0, ['a', 'b']⟩] :=
  ⟨by decide, by decide, by decide, by decide,
    c7_amended (['a', 'b'] : List Char) 3 1 (by decide) (by decide)
      (by decide) (by decide)⟩

/-- CLAIM C8: for every input sequence, a non-positive `size` or `step` makes
`sliding_window` fail with the `ValueError` raised before any chunk is
produced. -/
theorem c8_invalid_params {α : Type} (seq : List α) (size step : Int)
    (h : size ≤ 0 ∨ step ≤ 0) :
    sliding_window seq size step =
      .error (.valueError "size and step must be positive") := by
  rw [sliding_window, if_pos h]

/-- CLAIM C8, witness: both `windowSize = 0` and `stepSize = -1` fail on a
concrete document. -/
theorem c8_witness :
    ((0 : Int) ≤ 0 ∨ (1 : Int) ≤ 0) ∧
    sliding_window (['a'] : List Char) 0 1 =
      .error (.valueError "size and step must be positive") ∧
    ((2 : Int) ≤ 0 ∨ (-1 : Int) ≤ 0) ∧
    sliding_window (['a'] : List Char) 2 (-1) =
      .error (.valueError "size and step must be positive") :=
  ⟨Or.inl (by decide), c8_invalid_params _ 0 1 (Or.inl (by decide)),
    Or.inr (by decide), c8_invalid_params _ 2 (-1) (Or.inr (by decide))⟩

/-! ### Numeric surrogates for the float64 routines used by numpy/scikit-learn

The Python code computes with float64.  The embedding works in exact rationals
and models the two irrational primitives, square root and natural logarithm,
by computable rational approximations: `ratSqrt` is exact on perfect squares
of rationals (in particular on the values arising in the concrete corpora
studied below) and `ratLog` is a truncated atanh series for the natural log,
exact at 1.  No theorem below depends on the approximation error: the ranking
facts are proved either for arbitrary score vectors or on corpora engineered
so that every intermediate value is an exact rational. -/

/-- Newton iteration for the integer square root, with explicit fuel so that
the recursion is structural. -/
def natSqrtIter (n : Nat) : Nat → Nat → Nat
  | 0, guess => guess
  | fuel + 1, guess =>
    let next := (guess + n / guess) / 2
    if next < guess then natSqrtIter n fuel next else guess

/-- The integer square root (the same value as `Nat.sqrt`, computed with
structural recursion). -/
def natSqrt (n : Nat) : Nat :=
  if n ≤ 1 then n else natSqrtIter n n (n / 2)

/-- Rational square root surrogate: exact whenever the argument is the square
of a rational, an under-approximation otherwise, and `0` on non-positive
input. -/
def ratSqrt (q : Rat) : Rat :=
  if q ≤ 0 then 0 else (natSqrt q.num.toNat : Rat) / (natSqrt q.den : Rat)

/-- Rational natural-log surrogate via the atanh series
`log x = 2 * (y + y^3/3 + y^5/5 + ...)` with `y = (x-1)/(x+1)`, truncated;
`0` on non-positive input.  Exact at `x = 1`, positive for `x > 1`. -/
def ratLog (x : Rat) : Rat :=
  if x ≤ 0 then 0
  else
    let y := (x - 1) / (x + 1)
    2 * (y + y ^ 3 / 3 + y ^ 5 / 5)

/-- Dot product of two numeric vectors. -/
def dotQ (a b : List Rat) : Rat := (List.zipWith (· * ·) a b).sum

/-- L2 normalization of a row, as sklearn's vectorizer applies it (a zero row
is left unchanged). -/
def l2normalize (v : List Rat) : List Rat :=
  let n := ratSqrt (dotQ v v)
  if n = 0 then v else v.map (· / n)

/-- The `sklearn.metrics.pairwise.cosine_similarity` of two vectors:
`dot(a, b) / (|a| * |b|)`. -/
def cosineSim (a b : List Rat) : Rat :=
  dotQ a b / (ratSqrt (dotQ a a) * ratSqrt (dotQ b b))

/-- The order `numpy.argsort` sorts row indices by: ascending score, equal
scores kept in index order (the source's contract only asks for ties broken
consistently). -/
def argsortRel (l : List Rat) (i j : Nat) : Prop :=
  l.getD i 0 < l.getD j 0 ∨ (l.getD i 0 = l.getD j 0 ∧ i ≤ j)

instance (l : List Rat) : DecidableRel (argsortRel l) := fun _ _ =>
  inferInstanceAs (Decidable (_ ∨ _))

/-- Ascending `numpy.argsort` over a score list: the indices `0..n-1` sorted
by `argsortRel`. -/
def argsortQ (l : List Rat) : List Nat :=
  (List.range l.length).insertionSort (argsortRel l)

/-- The Python slice `a[-k:]`: the whole list when `k = 0` (since `-0 == 0`),
otherwise the last `k` entries. -/
def pyLastSlice {α : Type} (l : List α) (k : Nat) : List α :=
  if k = 0 then l else l.drop (l.length - k)

/-! ### Documents, the analyzer, and the TF-IDF vector space -/

/-- The dict keys of a chunk record that the indexes read as text fields. -/
inductive TextField where
  | content
  | filename
deriving DecidableEq, Repr

/-- A chunk record as consumed by the indexes: `doc.get('content', '')` and
`doc.get('filename', '')` of the Python dicts. -/
structure Doc where
  filename : String
  content : String
deriving DecidableEq, Repr

/-- Reading one text field of a record, Python's `doc.get(f, "")`. -/
def Doc.getField (d : Doc) : TextField → String
  | .content => d.content
  | .filename => d.filename

/-- The text the index builds for one record:
`" ".join(str(doc.get(f, "")) for f in text_fields)`. -/
def docText (fields : List TextField) (d : Doc) : String :=
  String.intercalate " " (fields.map d.getField)

/-- The English stop-word list applied by `TfidfVectorizer(stop_words='english')`. -/
def englishStopWords : List String :=
  ["a", "about", "above", "across", "after", "afterwards", "again", "against",
   "all", "almost", "alone", "along", "already", "also", "although", "always",
   "am", "among", "amongst", "amount", "an", "and", "another", "any", "anyhow",
   "anyone", "anything", "anyway", "anywhere", "are", "around", "as", "at",
   "back", "be", "became", "because", "become", "becomes", "becoming", "been",
   "before", "beforehand", "behind", "being", "below", "beside", "besides",
   "between", "beyond", "bill", "both", "bottom", "but", "by", "call", "can",
   "cannot", "cant", "co", "con", "could", "couldnt", "cry", "de", "describe",
   "detail", "do", "done", "down", "due", "during", "each", "eg", "eight",
   "either", "eleven", "else", "elsewhere", "empty", "enough", "etc", "even",
   "ever", "every", "everyone", "everything", "everywhere", "except", "few",
   "fifteen", "fifty", "fill", "find", "fire", "first", "five", "for",
   "former", "formerly", "forty", "found", "four", "from", "front", "full",
   "further", "get", "give", "go", "had", "has", "hasnt", "have", "he",
   "hence", "her", "here", "hereafter", "hereby", "herein", "hereupon",
   "hers", "herself", "him", "himself", "his", "how", "however", "hundred",
   "i", "ie", "if", "in", "inc", "indeed", "interest", "into", "is", "it",
   "its", "itself", "keep", "last", "latter", "latterly", "least", "less",
   "ltd", "made", "many", "may", "me", "meanwhile", "might", "mill", "mine",
   "more", "moreover", "most", "mostly", "move", "much", "must", "my",
   "myself", "name", "namely", "neither", "never", "nevertheless", "next",
   "nine", "no", "nobody", "none", "noone", "nor", "not", "nothing", "now",
   "nowhere", "of", "off", "often", "on", "once", "one", "only", "onto",
   "or", "other", "others", "otherwise", "our", "ours", "ourselves", "out",
   "over", "own", "part", "per", "perhaps", "please", "put", "rather", "re",
   "same", "see", "seem", "seemed", "seeming", "seems", "serious", "several",
   "she", "should", "show", "side", "since", "sincere", "six", "sixty", "so",
   "some", "somehow", "someone", "something", "sometime", "sometimes",
   "somewhere", "still", "such", "system", "take", "ten", "than", "that",
   "the", "their", "them", "themselves", "then", "thence", "there",
   "thereafter", "thereby", "therefore", "therein", "thereupon", "these",
   "they", "thick", "thin", "third", "this", "those", "though", "three",
   "through", "throughout", "thru", "thus", "to", "together", "too", "top",
   "toward", "towards", "twelve", "twenty", "two", "un", "under", "until",
   "up", "upon", "us", "very", "via", "was", "we", "well", "were", "what",
   "whatever", "when", "whence", "whenever", "where", "whereafter", "whereas",
   "whereby", "wherein", "whereupon", "wherever", "whether", "which", "while",
   "whither", "who", "whoever", "whole", "whom", "whose", "why", "will",
   "with", "within", "without", "would", "yet", "you", "your", "yours",
   "yourself", "yourselves"]

/-- ASCII lowercasing of one character, as the vectorizer's `lowercase=True`
preprocessing applies to the corpora in question. -/
def charLower (c : Char) : Char :=
  if 'A' ≤ c ∧ c ≤ 'Z' then Char.ofNat (c.toNat + 32) else c

/-- A word character of the default token pattern `\w\w+`. -/
def isWordChar (c : Char) : Bool := c.isAlphanum || c == '_'

/-- Maximal runs of word characters in a character stream. -/
def wordRuns : List Char → List Char → List (List Char)
  | cur, [] => if cur.isEmpty then [] else [cur.reverse]
  | cur, c :: cs =>
    if isWordChar c then wordRuns (c :: cur) cs
    else if cur.isEmpty then wordRuns [] cs
    else cur.reverse :: wordRuns [] cs

/-- The fixed analyzer of `TfidfVectorizer(stop_words='english')`: lowercase,
extract tokens of at least two word characters, drop English stop words. -/
def analyze (s : String) : List String :=
  ((wordRuns [] (s.toList.map charLower)).filter (fun r => 2 ≤ r.length)).map
      (fun r => String.mk r) |>.filter (fun t => decide (t ∉ englishStopWords))

/-- Lexicographic comparison of character lists, the order of sklearn's
sorted vocabulary. -/
def charListLe : List Char → List Char → Bool
  | [], _ => true
  | _ :: _, [] => false
  | a :: as, b :: bs =>
    if a < b then true else if a = b then charListLe as bs else false

/-- The vocabulary order on token strings. -/
def vocabRel (a b : String) : Prop := charListLe a.toList b.toList = true

instance : DecidableRel vocabRel := fun _ _ =>
  inferInstanceAs (Decidable (_ = true))

/-- The fitted vocabulary: all distinct analyzed tokens of the corpus, in
sorted order as sklearn assigns feature indices. -/
def buildVocab (texts : List String) : List String :=
  ((texts.map analyze).flatten.eraseDups).insertionSort vocabRel

/-- The smooth idf of sklearn's `TfidfTransformer` defaults:
`ln((1 + n) / (1 + df)) + 1`. -/
def smoothIdf (n df : Nat) : Rat :=
  ratLog ((1 + (n : Rat)) / (1 + (df : Rat))) + 1

/-- One l2-normalized tf-idf row over a fitted vocabulary, used both for
corpus rows (`fit_transform`) and for the query (`transform`). -/
def tfidfRow (vocab : List String) (idfVec : List Rat) (text : String) : List Rat :=
  l2normalize (List.zipWith
    (fun t w => ((analyze text).count t : Rat) * w) vocab idfVec)

/-- A search result: a copy of the chunk record with a `score` key added. -/
structure SearchResult where
  doc : Doc
  score : Rat
deriving DecidableEq, Repr

/-- The sparse keyword index of `project/search.py` (class `Index`, duplicated
with identical fit/search logic in `project/app/search_tools.py`): the fitted
state is the stored records plus the vectorizer state (vocabulary and idf
vector) and the tf-idf matrix, `none` before `fit`. -/
structure Index where
  text_fields : List TextField
  docs : List Doc
  vocab : List String
  idfVec : List Rat
  tfidf_matrix : Option (List (List Rat))

/-- `Index.__init__`: empty docs, no matrix. -/
def Index.init (fields : List TextField) : Index :=
  ⟨fields, [], [], [], none⟩

/-- `Index.fit(docs)`: join the text fields of each record, fit the TF-IDF
vectorizer over the corpus and store the row matrix. -/
def Index.fit (idx : Index) (docs : List Doc) : Index :=
  let corpus := docs.map (docText idx.text_fields)
  let vocab := buildVocab corpus
  let idfVec := vocab.map fun t =>
    smoothIdf docs.length (corpus.countP fun tx => decide (t ∈ analyze tx))
  { idx with
    docs := docs
    vocab := vocab
    idfVec := idfVec
    tfidf_matrix := some (corpus.map (tfidfRow vocab idfVec)) }

/-- The result-collection loop of `Index.search`: walk the chosen row indices
in order, keep rows with positive score, and copy the record adding the
score; `self.docs[i]` raises `IndexError` when out of range. -/
def collectResults (docs : List Doc) (scores : List Rat) :
    List Nat → Except PyErr (List SearchResult)
  | [] => .ok []
  | i :: rest =>
    if 0 < scores.getD i 0 then
      match docs.get? i with
      | some d => do
          let tail ← collectResults docs scores rest
          .ok ({ doc := d, score := scores.getD i 0 } :: tail)
      | none => .error .indexError
    else collectResults docs scores rest

/-- `Index.search(query, num_results)`: empty result before `fit`; otherwise
cosine scores of the transformed query against every row, then
`np.argsort(scores)[-num_results:][::-1]` and the positive-score filter. -/
def Index.search (idx : Index) (q : String) (k : Nat) :
    Except PyErr (List SearchResult) :=
  match idx.tfidf_matrix with
  | none => .ok []
  | some m =>
    let scores := m.map (cosineSim (tfidfRow idx.vocab idx.idfVec q))
    collectResults idx.docs scores ((pyLastSlice (argsortQ scores) k).reverse)

/-- The score vector `Index.search` ranks by (line 29 of search.py), exposed
for specification purposes. -/
def Index.searchScores (idx : Index) (q : String) : List Rat :=
  match idx.tfidf_matrix with
  | none => []
  | some m => m.map (cosineSim (tfidfRow idx.vocab idx.idfVec q))

/-- The dense vector index of `project/search.py` / `search_tools.py` (class
`VectorSearch`): a stored embedding matrix (or `none` before `fit`) and the
aligned records. -/
structure VectorSearch where
  embeddings : Option (List (List Rat))
  docs : List Doc

/-- `VectorSearch.__init__`. -/
def VectorSearch.init : VectorSearch := ⟨none, []⟩

/-- `VectorSearch.fit(embeddings, docs)`: stores both, with no validation of
any kind. -/
def VectorSearch.fit (v : VectorSearch) (e : List (List Rat)) (docs : List Doc) :
    VectorSearch :=
  { v with embeddings := some e, docs := docs }

/-- The result loop of `VectorSearch.search`: like the sparse one but with no
positivity filter — every requested row is returned. -/
def collectAllResults (docs : List Doc) (scores : List Rat) :
    List Nat → Except PyErr (List SearchResult)
  | [] => .ok []
  | i :: rest =>
    match docs.get? i with
    | some d => do
        let tail ← collectAllResults docs scores rest
        .ok ({ doc := d, score := scores.getD i 0 } :: tail)
    | none => .error .indexError

/-- `VectorSearch.search(query_embedding, num_results)`: empty before `fit`;
otherwise cosine of the (1 x d) query against every matrix row — numpy raises
a `ValueError` when the inner dimensions disagree — then the same
argsort/slice/reverse selection, without any score filter. -/
def VectorSearch.search (v : VectorSearch) (qe : List Rat) (k : Nat) :
    Except PyErr (List SearchResult) :=
  match v.embeddings with
  | none => .ok []
  | some m =>
    if m.any fun row => row.length ≠ qe.length then
      .error (.valueError "Incompatible dimension for X and Y matrices")
    else
      let scores := m.map (cosineSim qe)
      collectAllResults v.docs scores ((pyLastSlice (argsortQ scores) k).reverse)

/-- The opaque external embedding model (`model.encode`). -/
structure EmbedModel where
  encode : String → List Rat

/-- The deduplication key of the facade's `hybrid_search`
(`project/app/search_tools.py` line 75):
`(res.get('filename', ''), res.get('content', '')[:100])`. -/
def hkey (r : SearchResult) : String × String :=
  (r.doc.filename, String.mk (r.doc.content.toList.take 100))

/-- The combine/deduplicate loop of `hybrid_search`: first occurrence of each
key wins, later occurrences are dropped (`seen` plays the Python set). -/
def dedupLoop (seen : List (String × String)) :
    List SearchResult → List SearchResult
  | [] => []
  | r :: rest =>
    if hkey r ∈ seen then dedupLoop seen rest
    else r :: dedupLoop (hkey r :: seen) rest

/-- `hybrid_search(query, index, vector_index, embedding_model, num_results)`
from `project/app/search_tools.py` (lines 63-79): `2k` sparse candidates, then
`2k` dense candidates on the encoded query, concatenated sparse-first,
deduplicated by `(filename, content[:100])` keeping first occurrences, and
truncated to the first `k`. -/
def hybrid_search (q : String) (idx : Index) (vidx : VectorSearch)
    (model : EmbedModel) (k : Nat) : Except PyErr (List SearchResult) := do
  let text_results ← idx.search q (k * 2)
  let vector_results ← vidx.search (model.encode q) (k * 2)
  .ok ((dedupLoop [] (text_results ++ vector_results)).take k)

/-! ### The retrieval facade of `project/app/search_tools.py` -/

/-- The module-level globals `_index`, `_v_index`, `_model`. -/
structure SearchState where
  g_index : Option Index
  g_v_index : Option VectorSearch
  g_model : Option EmbedModel

/-- The observable side effects of `initialize_search_indexes`: reading the
two artifact files, loading the sentence-transformer model, and fitting the
two indexes. -/
inductive FileAction where
  | readChunks
  | fitSparse
  | loadModel
  | readEmbeddings
  | fitDense
deriving DecidableEq, Repr

/-- The artifacts on disk: `chunks.json` and `embeddings.npy` (absent when
`os.path.exists` is false), and the loadable embedding model. -/
structure Env where
  chunksFile : Option (List Doc)
  embeddingsFile : Option (List (List Rat))
  sentenceTransformer : EmbedModel

/-- `initialize_search_indexes(...)` (lines 86-107): skip everything when
`_index is not None and _model is not None`; fail when the chunks artifact is
absent; otherwise re-read the corpus and fit the sparse index, and fit the
dense index too when the embeddings artifact exists.  The returned list
records the file reads and index builds the call performed. -/
def initialize_search_indexes (st : SearchState) (env : Env) :
    SearchState × Bool × List FileAction :=
  if st.g_index.isSome && st.g_model.isSome then (st, true, [])
  else
    match env.chunksFile with
    | none => (st, false, [])
    | some chunks =>
      let idx := (Index.init [TextField.content, TextField.filename]).fit chunks
      match env.embeddingsFile with
      | some emb =>
        ({ g_index := some idx
           g_v_index := some (VectorSearch.init.fit emb chunks)
           g_model := some env.sentenceTransformer }, true,
         [.readChunks, .fitSparse, .loadModel, .readEmbeddings, .fitDense])
      | none =>
        ({ st with g_index := some idx }, true, [.readChunks, .fitSparse])

/-- The snippet truncation of `text_search`: `content[:600] + "..."` when the
content is longer than 600 characters. -/
def snippet (c : String) : String :=
  if 600 < c.length then String.mk (c.toList.take 600) ++ "..." else c

/-- The formatted block of one result:
`f"Source {i} [{source}]:\n{snippet}\n"`. -/
def formatOne (i : Nat) (r : SearchResult) : String :=
  "Source " ++ toString i ++ " [" ++ r.doc.filename ++ "]:\n" ++
    snippet r.doc.content ++ "\n"

/-- The `"\n".join(formatted)` of `text_search`, enumerating from 1. -/
def formatResults (rs : List SearchResult) : String :=
  String.intercalate "\n" ((rs.enumFrom 1).map fun p => formatOne p.1 p.2)

/-- The body of the `try:` block of `text_search` (lines 117-132): hybrid
search when both the dense index and model are present (`if _v_index and
_model:`), sparse-only otherwise; then the no-result message or the formatted
snippets. -/
def searchBody (idx : Index) (st : SearchState) (q : String) :
    Except PyErr String := do
  let results ←
    match st.g_v_index, st.g_model with
    | some v, some m => hybrid_search q idx v m 2
    | _, _ => idx.search q 2
  if results.isEmpty then
    .ok "No relevant documentation found."
  else
    .ok (formatResults results)

/-- `text_search(query)` (lines 110-134): the not-initialized message when
`_index is None`; otherwise the try body, with any exception `e` caught and
rendered as `f"Error during search: {str(e)}"`. -/
def text_search (st : SearchState) (q : String) : String :=
  match st.g_index with
  | none => "Search index not initialized. Please run ingestion first."
  | some idx =>
    match searchBody idx st q with
    | .ok s => s
    | .error e => "Error during search: " ++ e.text

/-! ### Dense index fitting (claim C3) -/

/-- CLAIM C3, counterexample: `VectorSearch.fit` accepts an embedding matrix
of two rows together with a corpus of one chunk and returns the fitted index
storing both, rather than failing with any dimension error. -/
theorem c3_counterexample :
    VectorSearch.init.fit [[1], [2]] [⟨"f.md", "x"⟩] =
      { embeddings := some [[1], [2]], docs := [⟨"f.md", "x"⟩] } ∧
    ([[(1 : Rat)], [2]] : List (List Rat)).length ≠
      ([⟨"f.md", "x"⟩] : List Doc).length :=
  ⟨rfl, by decide⟩

/-- CLAIM C3, amended: `VectorSearch.fit` performs no row-count validation at
all — it succeeds and stores the matrix and corpus exactly as given, for every
input including misaligned ones; the misalignment surfaces only later, e.g. as
an `IndexError` at search time. -/
theorem c3_amended :
    (∀ (v : VectorSearch) (e : List (List Rat)) (docs : List Doc),
      v.fit e docs = { embeddings := some e, docs := docs }) ∧
    (VectorSearch.init.fit [[1], [1]] []).search [1] 5 = .error .indexError := by
  refine ⟨fun v e docs => rfl, ?_⟩
  with_unfolding_all rfl

/-! ### Facade initialization (claim C5) -/

/-- A corpus artifact of one chunk and no embeddings artifact, the degraded
environment of claim C5. -/
def envDegraded : Env :=
  ⟨some [⟨"f.md", "x"⟩], none, ⟨fun _ => []⟩⟩

/-- The facade state after one successful degraded initialization from the
empty state. -/
def stateAfterDegraded : SearchState :=
  (initialize_search_indexes ⟨none, none, none⟩ envDegraded).1

/-- CLAIM C5, counterexample: after a successful (`True`-returning) degraded
initialization — corpus present, embeddings absent — a second call is not a
no-op: it re-reads the corpus artifact and re-fits the sparse index, with no
force-reload parameter involved. -/
theorem c5_counterexample :
    (initialize_search_indexes ⟨none, none, none⟩ envDegraded).2.1 = true ∧
    (initialize_search_indexes stateAfterDegraded envDegraded).2.1 = true ∧
    (initialize_search_indexes stateAfterDegraded envDegraded).2.2 =
      [.readChunks, .fitSparse] ∧
    (initialize_search_indexes stateAfterDegraded envDegraded).2.2 ≠
      ([] : List FileAction) := by
  refine ⟨?_, ?_, ?_, ?_⟩
  · with_unfolding_all rfl
  · with_unfolding_all rfl
  · with_unfolding_all rfl
  · rw [show (initialize_search_indexes stateAfterDegraded envDegraded).2.2 =
        [.readChunks, .fitSparse] from by with_unfolding_all rfl]
    decide

/-- CLAIM C5, amended: a second call is a guaranteed no-op only after an
initialization that left both the sparse index and the embedding model set
(i.e. the embeddings artifact was present): in that state the call returns
success immediately, with no file read and no index rebuilt.  After a
degraded success (corpus present, embeddings absent) the sparse index is
rebuilt from disk on every call; the code has no explicit force-reload
parameter. -/
theorem c5_amended (st : SearchState) (env : Env)
    (h1 : st.g_index.isSome = true) (h2 : st.g_model.isSome = true) :
    initialize_search_indexes st env = (st, true, []) := by
  rw [initialize_search_indexes, h1, h2]
  rfl

/-- CLAIM C5, witness: the no-op fact at a concrete fully-initialized state. -/
theorem c5_witness :
    (SearchState.mk (some (Index.init [TextField.content])) none
        (some ⟨fun _ => []⟩)).g_index.isSome = true ∧
    (SearchState.mk (some (Index.init [TextField.content])) none
        (some ⟨fun _ => []⟩)).g_model.isSome = true ∧
    initialize_search_indexes
        (SearchState.mk (some (Index.init [TextField.content])) none
          (some ⟨fun _ => []⟩)) envDegraded =
      (SearchState.mk (some (Index.init [TextField.content])) none
        (some ⟨fun _ => []⟩), true, []) :=
  ⟨rfl, rfl, c5_amended _ envDegraded rfl rfl⟩

/-! ### Facade query totality (claim C6) -/

/-- CLAIM C6: `text_search` always returns a string, never letting an internal
failure escape: an uninitialized index yields the fixed diagnostic, an
exception `e` anywhere in the search body yields `"Error during search: " ++
str(e)`, and a successful body is returned as is. -/
theorem c6_text_search_never_raises (st : SearchState) (q : String) :
    (st.g_index = none →
      text_search st q =
        "Search index not initialized. Please run ingestion first.") ∧
    (∀ idx, st.g_index = some idx →
      (∀ e, searchBody idx st q = .error e →
        text_search st q = "Error during search: " ++ e.text) ∧
      (∀ s, searchBody idx st q = .ok s → text_search st q = s)) := by
  refine ⟨fun h => by rw [text_search, h], fun idx hidx => ⟨?_, ?_⟩⟩
  · intro e he
    simp only [text_search, hidx, he]
  · intro s hs
    simp only [text_search, hidx, hs]

/-- A facade state whose dense index stores three embedding rows over a
single-chunk corpus: searching it raises Python's `IndexError`. -/
def stateMisaligned : SearchState :=
  ⟨some (Index.init [TextField.content]),
   some ⟨some [[1], [1], [1]], [⟨"f.md", "cat dog"⟩]⟩,
   some ⟨fun _ => [1]⟩⟩

/-- CLAIM C6, witness: on the misaligned state the body raises `IndexError`
and `text_search` converts it into the diagnostic string. -/
theorem c6_witness :
    stateMisaligned.g_index = some (Index.init [TextField.content]) ∧
    searchBody (Index.init [TextField.content]) stateMisaligned "q" =
      .error .indexError ∧
    text_search stateMisaligned "q" =
      "Error during search: " ++ PyErr.indexError.text :=
  ⟨rfl, by with_unfolding_all rfl,
    ((c6_text_search_never_raises stateMisaligned "q").2
        (Index.init [TextField.content]) rfl).1 .indexError
      (by with_unfolding_all rfl)⟩

/-! ### Deduplication facts (claims C2 and C9) -/

/-- Every record kept by the dedup loop has a key outside `seen`, and is the
first record of the input with its key. -/
lemma dedupLoop_mem_first (r : SearchResult) :
    ∀ (l : List SearchResult) (seen : List (String × String)),
      r ∈ dedupLoop seen l →
        hkey r ∉ seen ∧ l.find? (fun x => decide (hkey x = hkey r)) = some r := by
  intro l
  induction l with
  | nil => intro seen h; simp [dedupLoop] at h
  | cons a rest ih =>
    intro seen h
    rw [dedupLoop] at h
    by_cases ha : hkey a ∈ seen
    · rw [if_pos ha] at h
      obtain ⟨hns, hfind⟩ := ih seen h
      have hne : ¬ (hkey a = hkey r) := fun hEq => hns (hEq ▸ ha)
      refine ⟨hns, ?_⟩
      rw [List.find?_cons_of_neg _ (by simpa using hne)]
      exact hfind
    · rw [if_neg ha] at h
      rcases List.mem_cons.mp h with rfl | htail
      · exact ⟨ha, List.find?_cons_of_pos _ (by simp)⟩
      · obtain ⟨hns, hfind⟩ := ih (hkey a :: seen) htail
        have hne : ¬ (hkey a = hkey r) := by
          intro hEq
          exact hns (hEq ▸ List.mem_cons_self _ _)
        refine ⟨fun hmem => hns (List.mem_cons_of_mem _ hmem), ?_⟩
        rw [List.find?_cons_of_neg _ (by simpa using hne)]
        exact hfind

/-- The dedup loop keeps the first occurrence: looking a key up in its output
finds the same record as in its input. -/
lemma dedupLoop_find (b : String × String) :
    ∀ (l : List SearchResult) (seen : List (String × String)), b ∉ seen →
      (dedupLoop seen l).find? (fun x => decide (hkey x = b)) =
        l.find? (fun x => decide (hkey x = b)) := by
  intro l
  induction l with
  | nil => intro seen _; rfl
  | cons a rest ih =>
    intro seen hb
    rw [dedupLoop]
    by_cases ha : hkey a ∈ seen
    · rw [if_pos ha]
      have hne : ¬ (hkey a = b) := fun hEq => hb (hEq ▸ ha)
      rw [List.find?_cons_of_neg _ (by simpa using hne)]
      exact ih seen hb
    · rw [if_neg ha]
      by_cases hab : hkey a = b
      · rw [List.find?_cons_of_pos _ (by simpa using hab),
          List.find?_cons_of_pos _ (by simpa using hab)]
      · rw [List.find?_cons_of_neg _ (by simpa using hab),
          List.find?_cons_of_neg _ (by simpa using hab)]
        exact ih (hkey a :: seen) (by
          intro hmem
          rcases List.mem_cons.mp hmem with hEq | hmem'
          · exact hab hEq.symm
          · exact hb hmem')

/-- A key present in the input and not yet seen appears exactly once in the
deduplicated output. -/
lemma dedupLoop_countP (b : String × String) :
    ∀ (l : List SearchResult) (seen : List (String × String)),
      b ∉ seen → b ∈ l.map hkey →
      (dedupLoop seen l).countP (fun x => decide (hkey x = b)) = 1 := by
  intro l
  induction l with
  | nil => intro seen _ h; simp at h
  | cons a rest ih =>
    intro seen hb hmem
    rw [dedupLoop]
    by_cases ha : hkey a ∈ seen
    · rw [if_pos ha]
      have hab : ¬ (hkey a = b) := fun hEq => hb (hEq ▸ ha)
      rw [List.map_cons] at hmem
      rcases List.mem_cons.mp hmem with hEq | hmem'
      · exact absurd hEq.symm hab
      · exact ih seen hb hmem'
    · rw [if_neg ha]
      by_cases hab : hkey a = b
      · rw [List.countP_cons_of_pos _ _ (by simpa using hab)]
        have hzero :
            (dedupLoop (hkey a :: seen) rest).countP
              (fun x => decide (hkey x = b)) = 0 := by
          rw [List.countP_eq_zero]
          intro r hr hkr
          obtain ⟨hns, _⟩ := dedupLoop_mem_first r rest (hkey a :: seen) hr
          have : hkey r = b := by simpa using hkr
          exact hns (by rw [this, ← hab]; exact List.mem_cons_self _ _)
        rw [hzero]
      · rw [List.countP_cons_of_neg _ _ (by simpa using hab)]
        have hb' : b ∉ hkey a :: seen := by
          intro hmem'
          rcases List.mem_cons.mp hmem' with hEq | h'
          · exact hab hEq.symm
          · exact hb h'
        rw [List.map_cons] at hmem
        rcases List.mem_cons.mp hmem with hEq | hmem'
        · exact absurd hEq.symm hab
        · exact ih (hkey a :: seen) hb' hmem'

/-- CLAIM C2: when a chunk `c` is returned by the sparse search and a chunk
with the same key (same filename, same content prefix) is returned by the
dense search, the hybrid fusion output is the sparse-first concatenation
deduplicated keeping first occurrences and truncated to `k` with no
re-ranking; the deduplicated list holds that key exactly once, and the kept
copy is the first sparse result with that key (hence carries the sparse
score); in particular when `c` is the top sparse result and `k ≥ 1`, `c`
itself is returned. -/
theorem c2_hybrid_sparse_first_dedup
    (q : String) (idx : Index) (vidx : VectorSearch) (model : EmbedModel)
    (k : Nat) (ts vs : List SearchResult) (c : SearchResult)
    (hs : idx.search q (k * 2) = .ok ts)
    (hv : vidx.search (model.encode q) (k * 2) = .ok vs)
    (hcs : c ∈ ts) (hcv : hkey c ∈ vs.map hkey) :
    hybrid_search q idx vidx model k =
      .ok ((dedupLoop [] (ts ++ vs)).take k) ∧
    (dedupLoop [] (ts ++ vs)).countP (fun x => decide (hkey x = hkey c)) = 1 ∧
    (dedupLoop [] (ts ++ vs)).find? (fun x => decide (hkey x = hkey c)) =
      ts.find? (fun x => decide (hkey x = hkey c)) ∧
    (∀ r, (dedupLoop [] (ts ++ vs)).find? (fun x => decide (hkey x = hkey c)) =
        some r → r ∈ ts) ∧
    (ts.head? = some c → 1 ≤ k → c ∈ (dedupLoop [] (ts ++ vs)).take k) := by
  have hkey_mem : hkey c ∈ (ts ++ vs).map hkey := by
    rw [List.map_append]
    exact List.mem_append_left _ (List.mem_map_of_mem hkey hcs)
  have hts_some : (ts.find? fun x => decide (hkey x = hkey c)).isSome := by
    rw [List.find?_isSome]
    exact ⟨c, hcs, by simp⟩
  obtain ⟨r0, hr0⟩ := Option.isSome_iff_exists.mp hts_some
  have hfind_eq : (dedupLoop [] (ts ++ vs)).find?
      (fun x => decide (hkey x = hkey c)) =
      ts.find? (fun x => decide (hkey x = hkey c)) := by
    rw [dedupLoop_find (hkey c) (ts ++ vs) [] (by simp), List.find?_append, hr0]
    rfl
  refine ⟨?_, ?_, hfind_eq, ?_, ?_⟩
  · simp only [hybrid_search, hs, hv]; rfl
  · exact dedupLoop_countP (hkey c) (ts ++ vs) [] (by simp) hkey_mem
  · intro r hr
    rw [hfind_eq] at hr
    exact List.mem_of_find?_eq_some hr
  · intro hhead hk
    cases ts with
    | nil => simp at hhead
    | cons a t =>
      obtain rfl : a = c := by simpa using hhead
      rw [List.cons_append, dedupLoop, if_neg (by simp)]
      obtain ⟨k', rfl⟩ : ∃ k', k = k' + 1 := ⟨k - 1, by omega⟩
      rw [List.take_succ_cons]
      exact List.mem_cons_self _ _

/-- The single-chunk corpus shared by the hybrid-search witnesses: the chunk
is returned by both the sparse and the dense path. -/
def hybridDoc : Doc := ⟨"f.md", "cat dog"⟩

/-- The sparse index fitted on `hybridDoc`. -/
def hybridIdx : Index := (Index.init [TextField.content]).fit [hybridDoc]

/-- The dense index fitted on one embedding row for `hybridDoc`. -/
def hybridVidx : VectorSearch := VectorSearch.init.fit [[3, 4]] [hybridDoc]

/-- A fixed embedding model for the witnesses. -/
def hybridModel : EmbedModel := ⟨fun _ => [1, 0]⟩

/-- CLAIM C2, witness: on the concrete corpus the sparse path returns the
chunk with score 1 and the dense path returns the same chunk with score 3/5;
hybrid search keeps it exactly once, with the sparse score, and the head
instance puts it in the truncated output. -/
theorem c2_witness :
    hybridIdx.search "cat" (2 * 2) = .ok [⟨hybridDoc, 1⟩] ∧
    hybridVidx.search (hybridModel.encode "cat") (2 * 2) =
      .ok [⟨hybridDoc, (3 : Rat)/5⟩] ∧
    (⟨hybridDoc, 1⟩ : SearchResult) ∈ [(⟨hybridDoc, 1⟩ : SearchResult)] ∧
    hkey ⟨hybridDoc, 1⟩ ∈ [(⟨hybridDoc, (3 : Rat)/5⟩ : SearchResult)].map hkey ∧
    hybrid_search "cat" hybridIdx hybridVidx hybridModel 2 =
      .ok ((dedupLoop []
        ([(⟨hybridDoc, 1⟩ : SearchResult)] ++
          [(⟨hybridDoc, (3 : Rat)/5⟩ : SearchResult)])).take 2) ∧
    (dedupLoop []
        ([(⟨hybridDoc, 1⟩ : SearchResult)] ++
          [(⟨hybridDoc, (3 : Rat)/5⟩ : SearchResult)])).countP
      (fun x => decide (hkey x = hkey ⟨hybridDoc, 1⟩)) = 1 ∧
    ([(⟨hybridDoc, 1⟩ : SearchResult)].head? = some ⟨hybridDoc, 1⟩ → 1 ≤ 2 →
      (⟨hybridDoc, 1⟩ : SearchResult) ∈
        (dedupLoop []
          ([(⟨hybridDoc, 1⟩ : SearchResult)] ++
            [(⟨hybridDoc, (3 : Rat)/5⟩ : SearchResult)])).take 2) := by
  have hs : hybridIdx.search "cat" (2 * 2) = .ok [⟨hybridDoc, 1⟩] := by
    with_unfolding_all rfl
  have hv : hybridVidx.search (hybridModel.encode "cat") (2 * 2) =
      .ok [⟨hybridDoc, (3 : Rat)/5⟩] := by
    with_unfolding_all rfl
  have hcs : (⟨hybridDoc, 1⟩ : SearchResult) ∈
      [(⟨hybridDoc, 1⟩ : SearchResult)] := List.mem_singleton.mpr rfl
  have hcv : hkey ⟨hybridDoc, 1⟩ ∈
      [(⟨hybridDoc, (3 : Rat)/5⟩ : SearchResult)].map hkey := by
    simp [hkey]
  obtain ⟨h1, h2, _h3, _h4, h5⟩ :=
    c2_hybrid_sparse_first_dedup "cat" hybridIdx hybridVidx hybridModel 2
      [⟨hybridDoc, 1⟩] [⟨hybridDoc, (3 : Rat)/5⟩] ⟨hybridDoc, 1⟩ hs hv hcs hcv
  exact ⟨hs, hv, hcs, hcv, h1, h2, h5⟩

/-- CLAIM C9: in the facade's hybrid search, when among the concatenated
candidates the first record carrying a given key (same filename, same first
100 content characters) is `r1`, any later distinct candidate `r2` with that
key — even with different full content — is dropped by the deduplication:
`r2` is absent from the combined list while `r1` is kept, and the output is
the deduplicated list truncated to `k`. -/
theorem c9_same_key_dropped
    (q : String) (idx : Index) (vidx : VectorSearch) (model : EmbedModel)
    (k : Nat) (ts vs : List SearchResult) (r1 r2 : SearchResult)
    (hs : idx.search q (k * 2) = .ok ts)
    (hv : vidx.search (model.encode q) (k * 2) = .ok vs)
    (hfind : (ts ++ vs).find? (fun x => decide (hkey x = hkey r2)) = some r1)
    (_hmem : r2 ∈ ts ++ vs)
    (_hfn : r1.doc.filename = r2.doc.filename)
    (_hpre : r1.doc.content.toList.take 100 = r2.doc.content.toList.take 100)
    (hne : r1.doc.content ≠ r2.doc.content) :
    r2 ∉ dedupLoop [] (ts ++ vs) ∧
    r1 ∈ dedupLoop [] (ts ++ vs) ∧
    hybrid_search q idx vidx model k =
      .ok ((dedupLoop [] (ts ++ vs)).take k) := by
  have hne' : r1 ≠ r2 := by
    intro hEq
    exact hne (by rw [hEq])
  refine ⟨?_, ?_, ?_⟩
  · intro hmem2
    obtain ⟨_, hfind2⟩ := dedupLoop_mem_first r2 (ts ++ vs) [] hmem2
    rw [hfind] at hfind2
    exact hne' (Option.some.inj hfind2)
  · have := dedupLoop_find (hkey r2) (ts ++ vs) [] (by simp)
    rw [hfind] at this
    exact List.mem_of_find?_eq_some this
  · simp only [hybrid_search, hs, hv]; rfl

/-- A 100-character common start: two chunks of the same file agreeing on it
while their full contents differ. -/
def sharedBase : String := "zebra " ++ String.mk (List.replicate 94 'a')

/-- First chunk of the duplicated-key pair. -/
def dupDocA : Doc := ⟨"doc.md", sharedBase ++ " cat dog"⟩

/-- Second chunk of the duplicated-key pair: same filename, same first 100
characters, different tail. -/
def dupDocB : Doc := ⟨"doc.md", sharedBase ++ " dog cat"⟩

/-- The sparse index fitted on the duplicated-key pair. -/
def dupIdx : Index := (Index.init [TextField.content]).fit [dupDocA, dupDocB]

/-- An unfitted dense index: its search returns no candidate. -/
def dupModel : EmbedModel := ⟨fun _ => []⟩

set_option maxRecDepth 1000000 in
/-- CLAIM C9, witness: searching the pair for their shared token returns both
chunks from the sparse path; the later one has the same key as the first and
different full content, and the deduplication drops it while keeping the
first. -/
theorem c9_witness :
    dupIdx.search "zebra" (2 * 2) =
      .ok [⟨dupDocB, (1 : Rat)/2⟩, ⟨dupDocA, (1 : Rat)/2⟩] ∧
    VectorSearch.init.search (dupModel.encode "zebra") (2 * 2) = .ok [] ∧
    (([⟨dupDocB, (1 : Rat)/2⟩, ⟨dupDocA, (1 : Rat)/2⟩] :
        List SearchResult) ++ []).find?
      (fun x => decide (hkey x = hkey ⟨dupDocA, (1 : Rat)/2⟩)) =
      some ⟨dupDocB, (1 : Rat)/2⟩ ∧
    (⟨dupDocA, (1 : Rat)/2⟩ : SearchResult) ∈
      ([⟨dupDocB, (1 : Rat)/2⟩, ⟨dupDocA, (1 : Rat)/2⟩] : List SearchResult) ++ [] ∧
    (⟨dupDocB, (1 : Rat)/2⟩ : SearchResult).doc.filename =
      (⟨dupDocA, (1 : Rat)/2⟩ : SearchResult).doc.filename ∧
    (⟨dupDocB, (1 : Rat)/2⟩ : SearchResult).doc.content.toList.take 100 =
      (⟨dupDocA, (1 : Rat)/2⟩ : SearchResult).doc.content.toList.take 100 ∧
    (⟨dupDocB, (1 : Rat)/2⟩ : SearchResult).doc.content ≠
      (⟨dupDocA, (1 : Rat)/2⟩ : SearchResult).doc.content ∧
    (⟨dupDocA, (1 : Rat)/2⟩ : SearchResult) ∉
      dedupLoop [] (([⟨dupDocB, (1 : Rat)/2⟩, ⟨dupDocA, (1 : Rat)/2⟩] :
        List SearchResult) ++ []) ∧
    (⟨dupDocB, (1 : Rat)/2⟩ : SearchResult) ∈
      dedupLoop [] (([⟨dupDocB, (1 : Rat)/2⟩, ⟨dupDocA, (1 : Rat)/2⟩] :
        List SearchResult) ++ []) := by
  have hs : dupIdx.search "zebra" (2 * 2) =
      .ok [⟨dupDocB, (1 : Rat)/2⟩, ⟨dupDocA, (1 : Rat)/2⟩] := by
    with_unfolding_all rfl
  have hv : VectorSearch.init.search (dupModel.encode "zebra") (2 * 2) =
      .ok ([] : List SearchResult) := rfl
  have hfind : (([⟨dupDocB, (1 : Rat)/2⟩, ⟨dupDocA, (1 : Rat)/2⟩] :
      List SearchResult) ++ []).find?
      (fun x => decide (hkey x = hkey ⟨dupDocA, (1 : Rat)/2⟩)) =
      some ⟨dupDocB, (1 : Rat)/2⟩ := by
    with_unfolding_all rfl
  have hmem : (⟨dupDocA, (1 : Rat)/2⟩ : SearchResult) ∈
      ([⟨dupDocB, (1 : Rat)/2⟩, ⟨dupDocA, (1 : Rat)/2⟩] :
        List SearchResult) ++ [] := by with_unfolding_all decide
  have hfn : (⟨dupDocB, (1 : Rat)/2⟩ : SearchResult).doc.filename =
      (⟨dupDocA, (1 : Rat)/2⟩ : SearchResult).doc.filename := rfl
  have hpre : (⟨dupDocB, (1 : Rat)/2⟩ : SearchResult).doc.content.toList.take 100 =
      (⟨dupDocA, (1 : Rat)/2⟩ : SearchResult).doc.content.toList.take 100 := by
    with_unfolding_all decide
  have hne : (⟨dupDocB, (1 : Rat)/2⟩ : SearchResult).doc.content ≠
      (⟨dupDocA, (1 : Rat)/2⟩ : SearchResult).doc.content := by
    with_unfolding_all decide
  obtain ⟨hdrop, hkeep, _⟩ :=
    c9_same_key_dropped "zebra" dupIdx VectorSearch.init dupModel 2
      [⟨dupDocB, (1 : Rat)/2⟩, ⟨dupDocA, (1 : Rat)/2⟩] []
      ⟨dupDocB, (1 : Rat)/2⟩ ⟨dupDocA, (1 : Rat)/2⟩ hs hv hfind hmem hfn hpre hne
  exact ⟨hs, hv, hfind, hmem, hfn, hpre, hne, hdrop, hkeep⟩

/-! ### Ranking facts about the sparse search (claims C4 and C10) -/

instance (l : List Rat) : IsTotal Nat (argsortRel l) := by
  constructor
  intro i j
  rcases lt_trichotomy (l.getD i 0) (l.getD j 0) with h | h | h
  · exact Or.inl (Or.inl h)
  · rcases Nat.le_total i j with hij | hji
    · exact Or.inl (Or.inr ⟨h, hij⟩)
    · exact Or.inr (Or.inr ⟨h.symm, hji⟩)
  · exact Or.inr (Or.inl h)

instance (l : List Rat) : IsTrans Nat (argsortRel l) := by
  constructor
  intro a b c hab hbc
  rcases hab with h1 | ⟨h1, h1'⟩ <;> rcases hbc with h2 | ⟨h2, h2'⟩
  · exact Or.inl (lt_trans h1 h2)
  · exact Or.inl (h2 ▸ h1)
  · exact Or.inl (h1 ▸ h2)
  · exact Or.inr ⟨h1.trans h2, h1'.trans h2'⟩

/-- Reading a list back through `getD` over its index range. -/
lemma map_getD_range (l : List Rat) :
    (List.range l.length).map (fun i => l.getD i 0) = l := by
  apply List.ext_getElem
  · simp
  · intro n h1 h2
    simp [List.getD, List.getElem?_eq_getElem h2]

/-- The scores read along `argsortQ` are ascending. -/
lemma argsort_val_sorted (l : List Rat) :
    List.Sorted (· ≤ ·) ((argsortQ l).map fun i => l.getD i 0) := by
  have hs := List.sorted_insertionSort (argsortRel l) (List.range l.length)
  exact List.Pairwise.map _
    (fun a b hab => by
      rcases hab with h | ⟨h, _⟩
      · exact le_of_lt h
      · exact le_of_eq h) hs

/-- The scores read along `argsortQ` are a permutation of the score list. -/
lemma argsort_val_perm (l : List Rat) :
    ((argsortQ l).map fun i => l.getD i 0).Perm l := by
  have hp : (argsortQ l).Perm (List.range l.length) :=
    List.perm_insertionSort (argsortRel l) _
  have := hp.map (fun i => l.getD i 0)
  rwa [map_getD_range] at this

/-- Counting entries at least `t` in a suffix of an ascending list. -/
lemma countP_drop_sorted (t : Rat) :
    ∀ (A : List Rat), List.Sorted (· ≤ ·) A → ∀ j : Nat,
      (A.drop j).countP (fun s => decide (t ≤ s)) =
        min (A.length - j) (A.countP fun s => decide (t ≤ s)) := by
  intro A
  induction A with
  | nil => intro _ j; simp
  | cons a A' ih =>
    intro hs j
    obtain ⟨hall, hs'⟩ := List.sorted_cons.mp hs
    cases j with
    | zero =>
      have := List.countP_le_length (p := fun s => decide (t ≤ s)) (l := a :: A')
      simp only [List.drop_zero, Nat.sub_zero]
      omega
    | succ j' =>
      rw [List.drop_succ_cons, ih hs' j']
      by_cases hpa : t ≤ a
      · have hcnt : A'.countP (fun s => decide (t ≤ s)) = A'.length :=
          List.countP_eq_length.mpr fun b hb => by
            simp only [decide_eq_true_eq]
            exact le_trans hpa (hall b hb)
        have hpos : (a :: A').countP (fun s => decide (t ≤ s)) =
            A'.countP (fun s => decide (t ≤ s)) + 1 :=
          List.countP_cons_of_pos _ _ (by simpa using hpa)
        simp only [List.length_cons]
        omega
      · have hneg : (a :: A').countP (fun s => decide (t ≤ s)) =
            A'.countP (fun s => decide (t ≤ s)) :=
          List.countP_cons_of_neg _ _ (by simpa using hpa)
        simp only [List.length_cons]
        omega

/-- The score list carried out of the collection loop of `Index.search`:
its rows are the chosen scores filtered to the positive ones, in order. -/
lemma collectResults_ok_map :
    ∀ (idxs : List Nat) (docs : List Doc) (scores : List Rat)
      (rs : List SearchResult),
      collectResults docs scores idxs = .ok rs →
      rs.map (fun r => r.score) =
        (idxs.map fun i => scores.getD i 0).filter fun s => decide (0 < s) := by
  intro idxs
  induction idxs with
  | nil =>
    intro docs scores rs h
    rw [collectResults] at h
    obtain rfl : ([] : List SearchResult) = rs := by simpa using h
    simp
  | cons i rest ih =>
    intro docs scores rs h
    rw [collectResults] at h
    by_cases hpos : 0 < scores.getD i 0
    · rw [if_pos hpos] at h
      cases hd : docs.get? i with
      | none => rw [hd] at h; exact absurd h (by simp)
      | some d =>
        rw [hd] at h
        cases hrest : collectResults docs scores rest with
        | error e => rw [hrest] at h; simp [Bind.bind, Except.bind] at h
        | ok tail =>
          rw [hrest] at h
          simp only [Bind.bind, Except.bind, Except.ok.injEq] at h
          obtain rfl : ({ doc := d, score := scores.getD i 0 } :: tail) = rs := h
          rw [List.map_cons, List.map_cons,
            List.filter_cons_of_pos (by simpa using hpos), ih _ _ _ hrest]
    · rw [if_neg hpos] at h
      rw [ih _ _ _ h, List.map_cons,
        List.filter_cons_of_neg (by simpa using hpos)]

/-- The Python slice commutes with `map`. -/
lemma pyLastSlice_map {α β : Type} (f : α → β) (l : List α) (k : Nat) :
    pyLastSlice (l.map f) k = (pyLastSlice l k).map f := by
  unfold pyLastSlice
  by_cases hk : k = 0
  · simp [hk]
  · simp [hk, List.map_drop]

/-- The Python slice is a sublist of its input. -/
lemma pyLastSlice_sublist {α : Type} (l : List α) (k : Nat) :
    (pyLastSlice l k).Sublist l := by
  unfold pyLastSlice
  by_cases hk : k = 0
  · simp [hk]
  · rw [if_neg hk]; exact List.drop_sublist _ _

/-- With `k ≥ 1` the Python slice keeps at most `k` entries. -/
lemma pyLastSlice_length_le {α : Type} (l : List α) (k : Nat) (hk : k ≠ 0) :
    (pyLastSlice l k).length ≤ k := by
  unfold pyLastSlice
  rw [if_neg hk, List.length_drop]
  omega

/-- The scores of the records returned by searching a fitted index: the
chosen ascending suffix, reversed, filtered to the positive entries. -/
lemma search_ok_map_score (idx : Index) (m : List (List Rat)) (q : String)
    (k : Nat) (rs : List SearchResult)
    (hm : idx.tfidf_matrix = some m)
    (h : idx.search q k = .ok rs) :
    rs.map (fun r => r.score) =
      ((pyLastSlice ((argsortQ (idx.searchScores q)).map
          fun i => (idx.searchScores q).getD i 0) k).reverse).filter
        fun s => decide (0 < s) := by
  have hscores : idx.searchScores q =
      m.map (cosineSim (tfidfRow idx.vocab idx.idfVec q)) := by
    rw [Index.searchScores, hm]
  simp only [Index.search, hm] at h
  rw [collectResults_ok_map _ _ _ _ h, hscores, List.map_reverse,
    pyLastSlice_map]

/-- Shared shape of a successful search on a freshly fitted index: the output
scores are the chosen suffix of the ascending argsort reading, reversed and
filtered to positive entries; hence every returned score is positive and the
output is sorted by score descending. -/
lemma search_fit_core (fields : List TextField) (docs : List Doc) (q : String)
    (k : Nat) (rs : List SearchResult)
    (h : ((Index.init fields).fit docs).search q k = .ok rs) :
    rs.map (fun r => r.score) =
      ((pyLastSlice ((argsortQ (((Index.init fields).fit docs).searchScores q)).map
          fun i => (((Index.init fields).fit docs).searchScores q).getD i 0)
        k).reverse).filter (fun s => decide (0 < s)) ∧
    (∀ r ∈ rs, 0 < r.score) ∧
    List.Pairwise (fun a b : SearchResult => b.score ≤ a.score) rs := by
  obtain ⟨m, hm⟩ : ∃ m, ((Index.init fields).fit docs).tfidf_matrix = some m :=
    ⟨_, rfl⟩
  have hmap := search_ok_map_score _ m q k rs hm h
  set L := ((Index.init fields).fit docs).searchScores q with hL
  set A := (argsortQ L).map (fun i => L.getD i 0) with hA
  refine ⟨hmap, ?_, ?_⟩
  · intro r hr
    have hmem : r.score ∈ rs.map (fun r => r.score) := List.mem_map_of_mem _ hr
    rw [hmap] at hmem
    simpa using (List.mem_filter.mp hmem).2
  · have hAsorted : List.Sorted (· ≤ ·) A := argsort_val_sorted L
    have h1 : List.Sorted (· ≤ ·) (pyLastSlice A k) :=
      List.Pairwise.sublist (pyLastSlice_sublist A k) hAsorted
    have h2 : List.Pairwise (fun a b : Rat => b ≤ a) ((pyLastSlice A k).reverse) :=
      List.pairwise_reverse.mpr h1
    have h3 : List.Pairwise (fun a b : Rat => b ≤ a)
        (((pyLastSlice A k).reverse).filter (fun s => decide (0 < s))) :=
      List.Pairwise.sublist (List.filter_sublist _) h2
    rw [← hmap] at h3
    exact List.pairwise_map.mp h3

/-- Chunk A of the ranking scenario: five occurrences of the query term. -/
def demoDocA : Doc := ⟨"a.md", "cat cat cat cat cat"⟩

/-- Chunk B of the ranking scenario: one occurrence of the query term among
four other tokens. -/
def demoDocB : Doc := ⟨"b.md", "cat dog dog emu emu"⟩

/-- Chunk C of the ranking scenario: no occurrence of the query term. -/
def demoDocC : Doc := ⟨"c.md", "dog emu"⟩

/-- The three-chunk corpus of the ranking scenario. -/
def demoCorpus : List Doc := [demoDocA, demoDocB, demoDocC]

/-- The sparse index fitted on the ranking scenario corpus. -/
def demoIndex : Index := (Index.init [TextField.content]).fit demoCorpus

set_option maxRecDepth 1000000 in
/-- CLAIM C4: searching a fitted sparse index returns results sorted by score
descending, excludes every non-positive score even when fewer than `k`
results remain, returns at most `k` records, and for every positive threshold
returns `min k` of the rows reaching it (the top-`k` property); concretely,
on a corpus where chunk A holds the query term five times, B once and C never,
the search ranks A (score 1) above B (score 1/3) and excludes C. -/
theorem c4_sparse_topk_ranking :
    (∀ (fields : List TextField) (docs : List Doc) (q : String) (k : Nat)
       (rs : List SearchResult), 1 ≤ k →
       ((Index.init fields).fit docs).search q k = .ok rs →
       List.Pairwise (fun a b : SearchResult => b.score ≤ a.score) rs ∧
       (∀ r ∈ rs, 0 < r.score) ∧
       rs.length ≤ k ∧
       (∀ t : Rat, 0 < t →
         rs.countP (fun r => decide (t ≤ r.score)) =
           min k ((((Index.init fields).fit docs).searchScores q).countP
             fun s => decide (t ≤ s)))) ∧
    demoIndex.search "cat" 3 =
      .ok [⟨demoDocA, 1⟩, ⟨demoDocB, (1 : Rat)/3⟩] := by
  constructor
  · intro fields docs q k rs hk h
    obtain ⟨hmap, hpos, hsorted⟩ := search_fit_core fields docs q k rs h
    set L := ((Index.init fields).fit docs).searchScores q with hL
    set A := (argsortQ L).map (fun i => L.getD i 0) with hA
    have hk0 : k ≠ 0 := by omega
    have hAsorted : List.Sorted (· ≤ ·) A := argsort_val_sorted L
    have hAperm : A.Perm L := argsort_val_perm L
    have hAlen : A.length = L.length := hAperm.length_eq
    refine ⟨hsorted, hpos, ?_, ?_⟩
    · have hlen : rs.length = (rs.map (fun r => r.score)).length := by
        rw [List.length_map]
      rw [hmap] at hlen
      have h1 := List.length_filter_le (fun s => decide (0 < s))
        ((pyLastSlice A k).reverse)
      have h2 : ((pyLastSlice A k).reverse).length = (pyLastSlice A k).length :=
        List.length_reverse _
      have h3 := pyLastSlice_length_le A k hk0
      omega
    · intro t ht
      have hc1 : rs.countP (fun r => decide (t ≤ r.score)) =
          (rs.map (fun r => r.score)).countP (fun s => decide (t ≤ s)) := by
        rw [List.countP_map]; rfl
      have hiff : ∀ x ∈ (pyLastSlice A k).reverse,
          ((decide (t ≤ x) && decide (0 < x)) = true ↔
            decide (t ≤ x) = true) := by
        intro x _
        constructor
        · intro hx
          simp only [Bool.and_eq_true] at hx
          exact hx.1
        · intro hx
          simp only [Bool.and_eq_true]
          exact ⟨hx, decide_eq_true (lt_of_lt_of_le ht (of_decide_eq_true hx))⟩
      rw [hc1, hmap, List.countP_filter, List.countP_congr hiff,
        List.countP_reverse,
        show pyLastSlice A k = A.drop (A.length - k) from by
          unfold pyLastSlice; rw [if_neg hk0],
        countP_drop_sorted t A hAsorted,
        hAperm.countP_eq (fun s => decide (t ≤ s))]
      have hle := List.countP_le_length (p := fun s => decide (t ≤ s)) (l := L)
      omega
  · with_unfolding_all rfl

set_option maxRecDepth 1000000 in
/-- CLAIM C4, witness: the general ranking facts applied to the scenario
corpus with `k = 3` and threshold `t = 1/3`. -/
theorem c4_witness :
    (1 ≤ 3) ∧
    demoIndex.search "cat" 3 =
      .ok [⟨demoDocA, 1⟩, ⟨demoDocB, (1 : Rat)/3⟩] ∧
    (0 : Rat) < 1/3 ∧
    List.Pairwise (fun a b : SearchResult => b.score ≤ a.score)
      [⟨demoDocA, 1⟩, ⟨demoDocB, (1 : Rat)/3⟩] ∧
    (∀ r ∈ ([⟨demoDocA, 1⟩, ⟨demoDocB, (1 : Rat)/3⟩] : List SearchResult),
      0 < r.score) ∧
    ([⟨demoDocA, 1⟩, ⟨demoDocB, (1 : Rat)/3⟩] : List SearchResult).length ≤ 3 ∧
    ([⟨demoDocA, 1⟩, ⟨demoDocB, (1 : Rat)/3⟩] : List SearchResult).countP
        (fun r => decide ((1 : Rat)/3 ≤ r.score)) =
      min 3 ((demoIndex.searchScores "cat").countP
        fun s => decide ((1 : Rat)/3 ≤ s)) := by
  have hs : demoIndex.search "cat" 3 =
      .ok [⟨demoDocA, 1⟩, ⟨demoDocB, (1 : Rat)/3⟩] := by
    with_unfolding_all rfl
  have ht : (0 : Rat) < 1/3 := by norm_num
  obtain ⟨h1, h2, h3, h4⟩ :=
    c4_sparse_topk_ranking.1 [TextField.content] demoCorpus "cat" 3
      [⟨demoDocA, 1⟩, ⟨demoDocB, (1 : Rat)/3⟩] (by omega) hs
  exact ⟨by omega, hs, ht, h1, h2, h3, h4 ((1 : Rat)/3) ht⟩

set_option maxRecDepth 1000000 in
/-- CLAIM C10: searching a fitted sparse index with `num_results = 0` does not
return an empty list: since `a[-0:]` is the whole array, it returns exactly
the rows with strictly positive score (score-descending); concretely, on the
scenario corpus it returns both matching chunks. -/
theorem c10_zero_results_returns_all :
    (∀ (fields : List TextField) (docs : List Doc) (q : String)
       (rs : List SearchResult),
       ((Index.init fields).fit docs).search q 0 = .ok rs →
       rs.length =
         (((Index.init fields).fit docs).searchScores q).countP
           (fun s => decide (0 < s)) ∧
       (∀ r ∈ rs, 0 < r.score) ∧
       List.Pairwise (fun a b : SearchResult => b.score ≤ a.score) rs) ∧
    demoIndex.search "cat" 0 =
      .ok [⟨demoDocA, 1⟩, ⟨demoDocB, (1 : Rat)/3⟩] := by
  constructor
  · intro fields docs q rs h
    obtain ⟨hmap, hpos, hsorted⟩ := search_fit_core fields docs q 0 rs h
    set L := ((Index.init fields).fit docs).searchScores q with hL
    set A := (argsortQ L).map (fun i => L.getD i 0) with hA
    refine ⟨?_, hpos, hsorted⟩
    have hslice : pyLastSlice A 0 = A := by
      unfold pyLastSlice; rw [if_pos rfl]
    have hlen : rs.length = (rs.map (fun r => r.score)).length := by
      rw [List.length_map]
    rw [hmap, hslice] at hlen
    rw [hlen, ← List.countP_eq_length_filter, List.countP_reverse]
    exact (argsort_val_perm L).countP_eq _
  · with_unfolding_all rfl

set_option maxRecDepth 1000000 in
/-- CLAIM C10, witness: the `num_results = 0` facts at the scenario corpus. -/
theorem c10_witness :
    demoIndex.search "cat" 0 =
      .ok [⟨demoDocA, 1⟩, ⟨demoDocB, (1 : Rat)/3⟩] ∧
    ([⟨demoDocA, 1⟩, ⟨demoDocB, (1 : Rat)/3⟩] : List SearchResult).length =
      (demoIndex.searchScores "cat").countP (fun s => decide (0 < s)) ∧
    (∀ r ∈ ([⟨demoDocA, 1⟩, ⟨demoDocB, (1 : Rat)/3⟩] : List SearchResult),
      0 < r.score) := by
  have hs : demoIndex.search "cat" 0 =
      .ok [⟨demoDocA, 1⟩, ⟨demoDocB, (1 : Rat)/3⟩] := by
    with_unfolding_all rfl
  obtain ⟨h1, h2, _⟩ :=
    c10_zero_results_returns_all.1 [TextField.content] demoCorpus "cat"
      [⟨demoDocA, 1⟩, ⟨demoDocB, (1 : Rat)/3⟩] hs
  exact ⟨hs, h1, h2⟩
